import Mathlib

/-!
Shallow embedding of the tic-tac-toe game core from `src/src/index.tsx`.

The game state (`GameState`), the click handler (`handleClick`), the
time-travel jump (`jumpTo`), the winner computation (`calculateWinner`),
the coordinate lookup (`calculateCoordinate`) and the history-button
descriptions (from `Game.render`) are translated directly from the source.

Representation choices:
* A board cell is the string `''`, `'X'` or `'O'` in the source; here it
  is the inductive `Cell` (`Empty` stands for `''`).  A JavaScript
  truthiness test `squares[i]` corresponds to `getCell squares i ≠ Empty`,
  since out-of-range reads yield `undefined`, which is falsy exactly like
  the empty string.
* `squares` is a `List Cell`; reading uses `List.getD i Empty`
  (out-of-range access in JS gives `undefined`, i.e. falsy/empty), and
  assignment `squares[i] = v` is `setCell`, which extends the array with
  empty holes when `i` is past the end, as JS assignment does.
* `coords` is `Option (Nat × Nat)` (`calculateCoordinate` returns
  `undefined` outside the map's keys).
-/

namespace TicTacToe

/-- A board cell: `''`, `'X'` or `'O'` in the source. -/
inductive Cell
  | Empty
  | X
  | O
deriving DecidableEq, Repr

instance : Inhabited Cell := ⟨Cell.Empty⟩

abbrev Board := List Cell

/-- One element of `GameState.history` in the source:
`{squares: Array<string>, coords?: number[]}`. -/
structure HistoryEntry where
  squares : Board
  coords : Option (Nat × Nat)
deriving DecidableEq, Repr

instance : Inhabited HistoryEntry := ⟨⟨[], none⟩⟩

/-- The `GameState` interface of the source (`history`, `step`, `xIsNext`). -/
structure GameState where
  history : List HistoryEntry
  step : Nat
  xIsNext : Bool
deriving DecidableEq, Repr

/-- The initial state of the `Game` component:
one history entry with nine empty squares, `step = 0`, `xIsNext = true`. -/
def initState : GameState :=
  { history := [{ squares := List.replicate 9 Cell.Empty, coords := none }],
    step := 0,
    xIsNext := true }

/-- Array read `squares[i]`: out-of-range gives `undefined`, which behaves
like the empty string under truthiness, hence the `Empty` default. -/
def getCell (squares : Board) (i : Nat) : Cell :=
  squares.getD i Cell.Empty

/-- Array write `squares[i] = v`: in range it overwrites; past the end JS
extends the array to length `i + 1`, the new holes reading as `undefined`
(i.e. empty). -/
def setCell (squares : Board) (i : Nat) (v : Cell) : Board :=
  if i < squares.length then squares.set i v
  else squares ++ List.replicate (i - squares.length) Cell.Empty ++ [v]

/-- The `lines` array inside `calculateWinner`, in source order:
three rows, three columns, two diagonals. -/
def lines : List (Nat × Nat × Nat) :=
  [(0, 1, 2), (3, 4, 5), (6, 7, 8),
   (0, 3, 6), (1, 4, 7), (2, 5, 8),
   (0, 4, 8), (2, 4, 6)]

/-- One iteration of the loop in `calculateWinner`:
`squares[a] && squares[a] === squares[b] && squares[a] === squares[c]`. -/
def lineWinner (squares : Board) (l : Nat × Nat × Nat) : Option Cell :=
  let sa := getCell squares l.1
  if sa ≠ Cell.Empty ∧ sa = getCell squares l.2.1 ∧ sa = getCell squares l.2.2 then
    some sa
  else
    none

/-- `calculateWinner`: return the mark of the first winning line scanning
`lines` in order, `null` (here `none`) if no line is complete. -/
def calculateWinner (squares : Board) : Option Cell :=
  lines.findSome? (lineWinner squares)

/-- The literal `coordinateMap` built in `calculateCoordinate`. -/
def coordinateMap : List (Nat × (Nat × Nat)) :=
  [(0, (1, 1)), (1, (2, 1)), (2, (3, 1)),
   (3, (1, 2)), (4, (2, 2)), (5, (3, 2)),
   (6, (1, 3)), (7, (2, 3)), (8, (3, 3))]

/-- `calculateCoordinate`: `coordinateMap.get(i)`, `undefined` (`none`)
for keys outside 0..8. -/
def calculateCoordinate (i : Nat) : Option (Nat × Nat) :=
  coordinateMap.lookup i

/-- `handleClick(i)` of the `Game` component: truncate history after the
current step, return unchanged if there is a winner or the cell is taken,
otherwise append the new board with its coordinates and advance. -/
def handleClick (s : GameState) (i : Nat) : GameState :=
  let history := s.history.take (s.step + 1)
  let current := history.getD s.step default
  let squares := current.squares
  if (calculateWinner squares).isSome ∨ getCell squares i ≠ Cell.Empty then
    s
  else
    { history := history ++
        [{ squares := setCell squares i (if s.xIsNext then Cell.X else Cell.O),
           coords := calculateCoordinate i }],
      step := history.length,
      xIsNext := !s.xIsNext }

/-- `jumpTo(move)`: set `step` to `move` and `xIsNext` to `move % 2 === 0`,
with no range check and no change to `history`. -/
def jumpTo (s : GameState) (move : Nat) : GameState :=
  { s with step := move, xIsNext := move % 2 == 0 }

/-- The board displayed for the current step: `history[step].squares`. -/
def currentBoard (s : GameState) : Board :=
  (s.history.getD s.step default).squares

/-- `it.coords!.join(', ')` from `Game.render` (the `none` branch is never
reached in states where every non-initial entry stores coordinates). -/
def joinCoords : Option (Nat × Nat) → String
  | some (c, r) => toString c ++ ", " ++ toString r
  | none => ""

/-- The description of one history button from `Game.render`:
`move ? 'Go to move #' + move + " at (" + it.coords!.join(', ') + ")" : 'Go to start'`. -/
def describeEntry (move : Nat) (e : HistoryEntry) : String :=
  if move = 0 then "Go to start"
  else "Go to move #" ++ toString move ++ " at (" ++ joinCoords e.coords ++ ")"

/-- The index-passing `history.map((it, move) => …)` of `Game.render`. -/
def descriptionsFrom (move : Nat) : List HistoryEntry → List String
  | [] => []
  | e :: rest => describeEntry move e :: descriptionsFrom (move + 1) rest

/-- The list of history-button descriptions produced by `Game.render`. -/
def historyDescriptions (s : GameState) : List String :=
  descriptionsFrom 0 s.history

/-- States reachable from the initial state by clicks on cells 0..8 and
in-range jumps (the only inputs the UI produces). -/
inductive Reachable : GameState → Prop
  | init : Reachable initState
  | move (s : GameState) (i : Nat) (hi : i < 9) :
      Reachable s → Reachable (handleClick s i)
  | jump (s : GameState) (k : Nat) (hk : k < s.history.length) :
      Reachable s → Reachable (jumpTo s k)

/-- States reachable by valid moves only: each click is on an empty cell
of a board with no winner. -/
inductive ReachableV : GameState → Prop
  | init : ReachableV initState
  | move (s : GameState) (i : Nat) (hi : i < 9)
      (hwin : calculateWinner (currentBoard s) = none)
      (hempty : getCell (currentBoard s) i = Cell.Empty) :
      ReachableV s → ReachableV (handleClick s i)

/-! ### List helper lemmas -/

lemma getD_take {α : Type} (l : List α) (m n : Nat) (d : α) (h : m < n) :
    (l.take n).getD m d = l.getD m d := by
  simp [List.getD_eq_getElem?_getD, List.getElem?_take_of_lt h]

lemma getD_append_left {α : Type} (l₁ l₂ : List α) (m : Nat) (d : α)
    (h : m < l₁.length) :
    (l₁ ++ l₂).getD m d = l₁.getD m d := by
  simp [List.getD_eq_getElem?_getD, List.getElem?_append_left h]

lemma getD_concat_length {α : Type} (l : List α) (a d : α) :
    (l ++ [a]).getD l.length d = a := by
  simp [List.getD_eq_getElem?_getD, List.getElem?_concat_length]

lemma getD_append_length {α : Type} (l : List α) (a d : α) (m : Nat)
    (h : l.length = m) :
    (l ++ [a]).getD m d = a := by
  subst h
  exact getD_concat_length l a d

lemma not_mod_two_beq (n : Nat) : (!(n % 2 == 0)) = ((n + 1) % 2 == 0) := by
  rcases Nat.mod_two_eq_zero_or_one n with h | h <;> simp [Nat.add_mod, h]

/-! ### Characterizing `handleClick` -/

lemma take_getD_entry (s : GameState) :
    (s.history.take (s.step + 1)).getD s.step default = s.history.getD s.step default :=
  getD_take _ _ _ _ (Nat.lt_succ_self _)

/-- When the current board has a winner or the clicked cell is occupied,
`handleClick` returns the state unchanged. -/
lemma handleClick_noop (s : GameState) (i : Nat)
    (h : (calculateWinner (currentBoard s)).isSome = true ∨
         getCell (currentBoard s) i ≠ Cell.Empty) :
    handleClick s i = s := by
  unfold handleClick
  simp only [take_getD_entry]
  simp only [currentBoard] at h
  rw [if_pos h]

/-- When the current board has no winner and the clicked cell is empty,
`handleClick` truncates, appends the new entry and advances the step. -/
lemma handleClick_move (s : GameState) (i : Nat)
    (hw : calculateWinner (currentBoard s) = none)
    (he : getCell (currentBoard s) i = Cell.Empty)
    (hstep : s.step < s.history.length) :
    handleClick s i =
      { history := s.history.take (s.step + 1) ++
          [{ squares := setCell (currentBoard s) i (if s.xIsNext then Cell.X else Cell.O),
             coords := calculateCoordinate i }],
        step := s.step + 1,
        xIsNext := !s.xIsNext } := by
  have hlen : (s.history.take (s.step + 1)).length = s.step + 1 := by
    simp [Nat.min_eq_left hstep]
  have hg : ¬((calculateWinner (currentBoard s)).isSome = true ∨
              getCell (currentBoard s) i ≠ Cell.Empty) := by
    simp [hw, he]
  unfold handleClick
  simp only [take_getD_entry]
  simp only [currentBoard] at hg
  rw [if_neg hg, hlen]
  rfl

/-! ### The invariant of reachable states -/

/-- Invariant maintained by `initState`, `handleClick` (clicks in 0..8) and
in-range `jumpTo`: the step points into history, `xIsNext` follows step
parity, entry 0 is the all-empty board, every board has nine cells, and
every non-initial entry stores coordinates. -/
def Inv (s : GameState) : Prop :=
  s.step < s.history.length ∧
  s.xIsNext = (s.step % 2 == 0) ∧
  (s.history.getD 0 default).squares = List.replicate 9 Cell.Empty ∧
  (∀ m, m < s.history.length → ((s.history.getD m default).squares).length = 9) ∧
  (∀ m, 0 < m → m < s.history.length → ((s.history.getD m default).coords).isSome = true)

lemma coordinate_isSome (i : Nat) (hi : i < 9) :
    (calculateCoordinate i).isSome = true := by
  interval_cases i <;> rfl

lemma setCell_length (squares : Board) (i : Nat) (v : Cell) (h : i < squares.length) :
    (setCell squares i v).length = squares.length := by
  simp [setCell, if_pos h]

lemma inv_init : Inv initState := by
  refine ⟨by decide, by decide, by decide, ?_, ?_⟩
  · intro m hm
    have hm1 : m = 0 := by simpa [initState] using hm
    subst hm1; decide
  · intro m hm0 hm1
    simp [initState] at hm1
    omega

lemma inv_jump (s : GameState) (k : Nat) (hk : k < s.history.length)
    (h : Inv s) : Inv (jumpTo s k) :=
  ⟨hk, rfl, h.2.2.1, h.2.2.2.1, h.2.2.2.2⟩

lemma inv_move (s : GameState) (i : Nat) (hi : i < 9) (h : Inv s) :
    Inv (handleClick s i) := by
  obtain ⟨h1, h2, h3, h4, h5⟩ := h
  by_cases hg : (calculateWinner (currentBoard s)).isSome = true ∨
      getCell (currentBoard s) i ≠ Cell.Empty
  · rw [handleClick_noop s i hg]
    exact ⟨h1, h2, h3, h4, h5⟩
  · push_neg at hg
    obtain ⟨hg1, hg2⟩ := hg
    have hwn : calculateWinner (currentBoard s) = none := by
      cases hcw : calculateWinner (currentBoard s) <;> simp_all
    rw [handleClick_move s i hwn hg2 h1]
    have hlen : (s.history.take (s.step + 1)).length = s.step + 1 := by
      simp [Nat.min_eq_left h1]
    have hblen : (currentBoard s).length = 9 := h4 s.step h1
    refine ⟨?_, ?_, ?_, ?_, ?_⟩
    · simp [hlen]
    · simpa [h2] using not_mod_two_beq s.step
    · rw [getD_append_left _ _ _ _ (by omega), getD_take _ _ _ _ (by omega)]
      exact h3
    · intro m hm
      simp only [List.length_append, hlen, List.length_singleton] at hm
      by_cases hm' : m < s.step + 1
      · rw [getD_append_left _ _ _ _ (by omega), getD_take _ _ _ _ hm']
        exact h4 m (by omega)
      · have hme : m = s.step + 1 := by omega
        subst hme
        rw [getD_append_length _ _ _ _ hlen]
        simpa [setCell_length _ _ _ (hblen ▸ hi)] using hblen
    · intro m hm0 hm
      simp only [List.length_append, hlen, List.length_singleton] at hm
      by_cases hm' : m < s.step + 1
      · rw [getD_append_left _ _ _ _ (by omega), getD_take _ _ _ _ hm']
        exact h5 m hm0 (by omega)
      · have hme : m = s.step + 1 := by omega
        subst hme
        rw [getD_append_length _ _ _ _ hlen]
        exact coordinate_isSome i hi

lemma reachable_inv {s : GameState} (h : Reachable s) : Inv s := by
  induction h with
  | init => exact inv_init
  | move s i hi _ ih => exact inv_move s i hi ih
  | jump s k hk _ ih => exact inv_jump s k hk ih

/-- `findSome?` returns the value of the first element mapped to `some`,
mirroring the early-return loop of `calculateWinner`. -/
lemma findSome?_eq_of_first {α β : Type} (f : α → Option β) :
    ∀ (l : List α) (j : Nat) (hj : j < l.length) (m : β),
      f (l.get ⟨j, hj⟩) = some m →
      (∀ (j' : Nat) (hj' : j' < l.length), j' < j → f (l.get ⟨j', hj'⟩) = none) →
      l.findSome? f = some m := by
  intro l
  induction l with
  | nil =>
    intro j hj
    exact absurd hj (by simp)
  | cons a t ih =>
    intro j hj m hm hnone
    cases j with
    | zero =>
      have hm' : f a = some m := hm
      rw [List.findSome?_cons, hm']
    | succ j' =>
      have ha : f a = none := hnone 0 (by omega) (by omega)
      rw [List.findSome?_cons, ha]
      refine ih j' (Nat.lt_of_succ_lt_succ hj) m ?_ ?_
      · exact hm
      · intro j'' hj'' hlt
        exact hnone (j'' + 1) (Nat.succ_lt_succ hj'') (Nat.succ_lt_succ hlt)

/-! ### Claim theorems -/

/-- C1: for every reachable state and cell index in 0..8, if the board at
the current step already has a winner or the cell is occupied, then
`handleClick` leaves `history`, `step` and `xIsNext` unchanged. -/
theorem C1_illegal_click_noop (s : GameState) (i : Nat)
    (hs : Reachable s) (hi : i < 9)
    (h : (calculateWinner (currentBoard s)).isSome = true ∨
         getCell (currentBoard s) i ≠ Cell.Empty) :
    (handleClick s i).history = s.history ∧
    (handleClick s i).step = s.step ∧
    (handleClick s i).xIsNext = s.xIsNext := by
  rw [handleClick_noop s i h]
  exact ⟨rfl, rfl, rfl⟩

/-- Witness for C1: clicking cell 0 twice — the second click hits an
occupied cell and changes nothing. -/
theorem C1_illegal_click_noop_witness :
    (handleClick (handleClick initState 0) 0).history = (handleClick initState 0).history ∧
    (handleClick (handleClick initState 0) 0).step = (handleClick initState 0).step ∧
    (handleClick (handleClick initState 0) 0).xIsNext = (handleClick initState 0).xIsNext :=
  C1_illegal_click_noop (handleClick initState 0) 0
    (Reachable.move initState 0 (by decide) Reachable.init) (by decide)
    (Or.inr (by decide))

/-- C2: after `jumpTo k` followed by a valid click, the history has length
`k + 2` and its first `k + 1` entries are those of the original history;
everything the original history held beyond index `k` is discarded. -/
theorem C2_branch_truncation (s : GameState) (k i : Nat)
    (hs : Reachable s) (hk : k < s.history.length) (hi : i < 9)
    (hw : calculateWinner (s.history.getD k default).squares = none)
    (he : getCell (s.history.getD k default).squares i = Cell.Empty) :
    (handleClick (jumpTo s k) i).history.length = k + 2 ∧
    (handleClick (jumpTo s k) i).history.take (k + 1) = s.history.take (k + 1) := by
  have hstep : (jumpTo s k).step < (jumpTo s k).history.length := hk
  rw [handleClick_move (jumpTo s k) i hw he hstep]
  have hlen : (s.history.take (k + 1)).length = k + 1 := by
    simp [Nat.min_eq_left hk]
  constructor
  · simp [jumpTo, hlen]
  · exact List.take_left' hlen

/-- Witness for C2: jump to the start and click cell 0. -/
theorem C2_branch_truncation_witness :
    (handleClick (jumpTo initState 0) 0).history.length = 0 + 2 ∧
    (handleClick (jumpTo initState 0) 0).history.take (0 + 1) =
      initState.history.take (0 + 1) :=
  C2_branch_truncation initState 0 0 Reachable.init (by decide) (by decide)
    (by decide) (by decide)

/-- Counterexample to C3: `jumpTo 1` on the initial state (whose history
has length 1, so step 1 is out of range) does not fail and does not clamp:
it silently stores the out-of-range step and changes the state. -/
theorem C3_counterexample_silent_set :
    initState.history.length = 1 ∧ (jumpTo initState 1).step = 1 ∧
    jumpTo initState 1 ≠ initState := by
  decide

/-- C3 as amended: `jumpTo` performs no range check at all — for every
state and every step value, in range or not, it sets `step` to that value,
derives `xIsNext` from its parity, and leaves `history` unchanged. -/
theorem C3_amended_jumpTo_unchecked (s : GameState) (k : Nat) :
    (jumpTo s k).step = k ∧ (jumpTo s k).history = s.history ∧
    (jumpTo s k).xIsNext = (k % 2 == 0) :=
  ⟨rfl, rfl, rfl⟩

/-- C4: `calculateWinner` returns `none` iff no line of `lines` is winning;
it returns the mark of the first winning line in the fixed scan order
(rows, columns, diagonals); a line wins iff its three cells hold the same
non-empty mark; and the three boards from the spec evaluate as stated. -/
theorem C4_winner_scan :
    (∀ squares : Board,
       calculateWinner squares = none ↔ ∀ l ∈ lines, lineWinner squares l = none) ∧
    (∀ (squares : Board) (j : Nat) (hj : j < lines.length) (m : Cell),
        lineWinner squares (lines.get ⟨j, hj⟩) = some m →
        (∀ (j' : Nat) (hj' : j' < lines.length), j' < j →
          lineWinner squares (lines.get ⟨j', hj'⟩) = none) →
        calculateWinner squares = some m) ∧
    (∀ (squares : Board) (a b c : Nat) (m : Cell),
        lineWinner squares (a, b, c) = some m ↔
          m ≠ Cell.Empty ∧ getCell squares a = m ∧ getCell squares b = m ∧
            getCell squares c = m) ∧
    calculateWinner [Cell.X, Cell.X, Cell.X, Cell.Empty, Cell.Empty, Cell.Empty,
      Cell.Empty, Cell.Empty, Cell.Empty] = some Cell.X ∧
    calculateWinner [Cell.X, Cell.O, Cell.X, Cell.O, Cell.X, Cell.O,
      Cell.O, Cell.X, Cell.O] = none ∧
    calculateWinner [Cell.X, Cell.Empty, Cell.Empty, Cell.Empty, Cell.X,
      Cell.Empty, Cell.Empty, Cell.Empty, Cell.X] = some Cell.X := by
  refine ⟨?_, ?_, ?_, by decide, by decide, by decide⟩
  · intro squares
    simp [calculateWinner, List.findSome?_eq_none_iff]
  · intro squares j hj m hm hnone
    exact findSome?_eq_of_first _ lines j hj m hm hnone
  · intro squares a b c m
    simp only [lineWinner]
    constructor
    · intro h
      split_ifs at h with hc
      obtain ⟨h1, h2, h3⟩ := hc
      have hm' := Option.some.inj h
      subst hm'
      exact ⟨h1, rfl, h2.symm, h3.symm⟩
    · rintro ⟨hm1, ha, hb, hc2⟩
      have hcnd : getCell squares a ≠ Cell.Empty ∧
          getCell squares a = getCell squares b ∧
          getCell squares a = getCell squares c :=
        ⟨by rw [ha]; exact hm1, by rw [ha, hb], by rw [ha, hc2]⟩
      rw [if_pos hcnd, ha]

/-- Witness for C4: the first-line clause at line 0 on a board whose top
row is all O. -/
theorem C4_winner_scan_witness :
    calculateWinner [Cell.O, Cell.O, Cell.O, Cell.X, Cell.X, Cell.Empty,
      Cell.Empty, Cell.Empty, Cell.X] = some Cell.O :=
  C4_winner_scan.2.1 _ 0 (by decide) Cell.O (by decide)
    (fun j' hj' h => absurd h (Nat.not_lt_zero j'))

/-- C5: in every reachable state, `xIsNext` holds exactly when the current
step is even. -/
theorem C5_parity_invariant (s : GameState) (hs : Reachable s) :
    s.xIsNext = true ↔ s.step % 2 = 0 := by
  rw [(reachable_inv hs).2.1]
  simp

/-- Witness for C5: the initial state. -/
theorem C5_parity_invariant_witness :
    initState.xIsNext = true ↔ initState.step % 2 = 0 :=
  C5_parity_invariant initState Reachable.init

/-- C6: after any sequence of valid clicks, the history length is the
current step plus one, and entry 0 still holds the all-empty board. -/
theorem C6_valid_moves_length (s : GameState) (hs : ReachableV s) :
    s.history.length = s.step + 1 ∧
    (s.history.getD 0 default).squares = List.replicate 9 Cell.Empty := by
  induction hs with
  | init => exact ⟨rfl, by decide⟩
  | move t i hi hwin hempty ht ih =>
    obtain ⟨ih1, ih2⟩ := ih
    have hstep : t.step < t.history.length := by omega
    rw [handleClick_move t i hwin hempty hstep]
    have hlen : (t.history.take (t.step + 1)).length = t.step + 1 := by
      simp [Nat.min_eq_left hstep]
    constructor
    · simp [hlen]
    · rw [getD_append_left _ _ _ _ (by rw [hlen]; omega),
        getD_take _ _ _ _ (by omega)]
      exact ih2

/-- Witness for C6: a single valid click on cell 4. -/
theorem C6_valid_moves_length_witness :
    (handleClick initState 4).history.length = (handleClick initState 4).step + 1 ∧
    ((handleClick initState 4).history.getD 0 default).squares =
      List.replicate 9 Cell.Empty :=
  C6_valid_moves_length (handleClick initState 4)
    (ReachableV.move initState 4 (by decide) (by decide) (by decide) ReachableV.init)

/-- C7: `jumpTo` changes only `step` and the derived `xIsNext`, never
`history`; and jumping to step 0 shows the all-empty board with X next. -/
theorem C7_jumpTo_frame (s : GameState) (k : Nat) (hs : Reachable s)
    (hk : k < s.history.length) :
    (jumpTo s k).history = s.history ∧ (jumpTo s k).step = k ∧
    (jumpTo s k).xIsNext = (k % 2 == 0) ∧
    currentBoard (jumpTo s 0) = List.replicate 9 Cell.Empty ∧
    (jumpTo s 0).xIsNext = true :=
  ⟨rfl, rfl, rfl, (reachable_inv hs).2.2.1, rfl⟩

/-- Witness for C7: the initial state with `k = 0`. -/
theorem C7_jumpTo_frame_witness :
    (jumpTo initState 0).history = initState.history ∧
    (jumpTo initState 0).step = 0 ∧
    (jumpTo initState 0).xIsNext = (0 % 2 == 0) ∧
    currentBoard (jumpTo initState 0) = List.replicate 9 Cell.Empty ∧
    (jumpTo initState 0).xIsNext = true :=
  C7_jumpTo_frame initState 0 Reachable.init (by decide)

/-- C8: the lookup table of `calculateCoordinate` agrees with the spec's
formula `(i % 3 + 1, i / 3 + 1)` on all indices 0..8, including the four
anchor points. -/
theorem C8_coordinate_formula :
    (∀ i, i < 9 → calculateCoordinate i = some (i % 3 + 1, i / 3 + 1)) ∧
    calculateCoordinate 0 = some (1, 1) ∧ calculateCoordinate 4 = some (2, 2) ∧
    calculateCoordinate 8 = some (3, 3) ∧ calculateCoordinate 2 = some (3, 1) := by
  refine ⟨?_, by decide, by decide, by decide, by decide⟩
  intro i hi
  interval_cases i <;> decide

/-- Witness for C8: the formula clause at index 5. -/
theorem C8_coordinate_formula_witness :
    calculateCoordinate 5 = some (5 % 3 + 1, 5 / 3 + 1) :=
  C8_coordinate_formula.1 5 (by omega)

/-- The description list is positionally aligned with the history. -/
lemma descriptionsFrom_getD (k : Nat) (l : List HistoryEntry) (m : Nat)
    (hm : m < l.length) :
    (descriptionsFrom k l).getD m "" = describeEntry (k + m) (l.getD m default) := by
  induction l generalizing k m with
  | nil => exact absurd hm (by simp)
  | cons e t ih =>
    cases m with
    | zero => simp [descriptionsFrom]
    | succ m' =>
      have hm' : m' < t.length := Nat.lt_of_succ_lt_succ hm
      have heq : k + 1 + m' = k + (m' + 1) := by omega
      simpa [descriptionsFrom, heq] using ih (k + 1) m' hm'

/-- C9: for each history index `m`, the rendered description is
"Go to start" when `m = 0` and otherwise "Go to move #m at (col, row)"
with the coordinates stored in that entry. -/
theorem C9_history_descriptions (s : GameState) (hs : Reachable s) (m : Nat)
    (hm : m < s.history.length) :
    (m = 0 → (historyDescriptions s).getD m "" = "Go to start") ∧
    (0 < m → ∃ c r, (s.history.getD m default).coords = some (c, r) ∧
      (historyDescriptions s).getD m "" =
        "Go to move #" ++ toString m ++ " at (" ++ toString c ++ ", " ++
          toString r ++ ")") := by
  have hd : (historyDescriptions s).getD m "" =
      describeEntry m (s.history.getD m default) := by
    simpa using descriptionsFrom_getD 0 s.history m hm
  constructor
  · intro h0
    subst h0
    rw [hd]
    rfl
  · intro hpos
    have hco := (reachable_inv hs).2.2.2.2 m hpos hm
    obtain ⟨⟨c, r⟩, hcr⟩ := Option.isSome_iff_exists.mp hco
    refine ⟨c, r, hcr, ?_⟩
    rw [hd]
    simp only [describeEntry, Nat.pos_iff_ne_zero.mp hpos, if_false, hcr,
      joinCoords]
    simp [String.append_assoc]

/-- Witness for C9: the entry created by clicking cell 0. -/
theorem C9_history_descriptions_witness :
    ∃ c r, ((handleClick initState 0).history.getD 1 default).coords = some (c, r) ∧
      (historyDescriptions (handleClick initState 0)).getD 1 "" =
        "Go to move #" ++ toString 1 ++ " at (" ++ toString c ++ ", " ++
          toString r ++ ")" :=
  (C9_history_descriptions (handleClick initState 0)
    (Reachable.move initState 0 (by decide) Reachable.init) 1 (by decide)).2
    (by omega)

/-- Out-of-range indices are absent from the coordinate map. -/
lemma calculateCoordinate_none (i : Nat) (hi : 9 ≤ i) :
    calculateCoordinate i = none := by
  have hb : ∀ k, k < 9 → (i == k) = false := by
    intro k hk
    rw [beq_eq_false_iff_ne]
    omega
  simp [calculateCoordinate, coordinateMap, List.lookup, hb 0 (by omega),
    hb 1 (by omega), hb 2 (by omega), hb 3 (by omega), hb 4 (by omega),
    hb 5 (by omega), hb 6 (by omega), hb 7 (by omega), hb 8 (by omega)]

/-- C10: a click outside 0..8 on a winner-free reachable state is not a
no-op: the out-of-range read looks empty to the guard, so a new entry with
no coordinates is appended and the step advances. -/
theorem C10_out_of_range_click (s : GameState) (i : Nat) (hs : Reachable s)
    (hw : calculateWinner (currentBoard s) = none) (hi : 9 ≤ i) :
    handleClick s i ≠ s ∧
    (handleClick s i).step = s.step + 1 ∧
    (handleClick s i).history.length = s.step + 2 ∧
    ((handleClick s i).history.getD (s.step + 1) default).coords = none ∧
    calculateCoordinate i = none := by
  have h1 := (reachable_inv hs).1
  have hblen := (reachable_inv hs).2.2.2.1 s.step h1
  have he : getCell (currentBoard s) i = Cell.Empty := by
    unfold getCell
    rw [List.getD_eq_getElem?_getD, List.getElem?_eq_none (by simp only [currentBoard]; omega)]
    rfl
  have hmove := handleClick_move s i hw he h1
  have hlen : (s.history.take (s.step + 1)).length = s.step + 1 := by
    simp [Nat.min_eq_left h1]
  have hnone := calculateCoordinate_none i hi
  refine ⟨?_, ?_, ?_, ?_, hnone⟩
  · intro heq
    have hst : (handleClick s i).step = s.step := by rw [heq]
    rw [hmove] at hst
    simp at hst
  · rw [hmove]
  · rw [hmove]
    simp [hlen]
  · rw [hmove]
    show ((s.history.take (s.step + 1) ++ [_]).getD (s.step + 1) default).coords = none
    rw [getD_append_length _ _ _ _ hlen]
    exact hnone

/-- Witness for C10: clicking index 9 on the initial state. -/
theorem C10_out_of_range_click_witness :
    handleClick initState 9 ≠ initState ∧
    (handleClick initState 9).step = initState.step + 1 ∧
    (handleClick initState 9).history.length = initState.step + 2 ∧
    ((handleClick initState 9).history.getD (initState.step + 1) default).coords = none ∧
    calculateCoordinate 9 = none :=
  C10_out_of_range_click initState 9 Reachable.init (by decide) (by omega)

end TicTacToe
